import Mathlib

/-!
# Verification of the Multichat complex server

A shallow embedding of the data model and core operations of
`Complex_Server.py`: the account registry (`OutsideMenu`), the inside menu
(`InsideMenu`), the channel subsystem (`ChannelServer` / `ChannelAdmin`) and
the line transport (`Client`).  Python dicts are modelled as insertion-ordered
association lists with the first binding of a key authoritative, matching
CPython semantics for lookup, single-binding deletion and in-place value
mutation.  Python lists are Lean lists; `list.remove` is `List.erase`
(first occurrence).
-/

namespace Multichat

/-! ## Association lists (Python `dict` with insertion order) -/

/-- First value bound to `k`, as in a Python `dict` lookup (keys are unique
in all reachable registries, so the first binding is the only one). -/
def aLookup (k : String) : List (String × α) → Option α
  | [] => none
  | p :: rest => if p.1 = k then some p.2 else aLookup k rest

/-- `k in d` for a Python dict. -/
def hasKey (k : String) (m : List (String × α)) : Bool :=
  (aLookup k m).isSome

/-- `del d[k]`: removes the (first) binding of `k`. -/
def eraseKey (k : String) : List (String × α) → List (String × α)
  | [] => []
  | p :: rest => if p.1 = k then rest else p :: eraseKey k rest

/-- In-place mutation of the value object bound to `k` (the binding keeps
its position, as mutating a Python value object does). -/
def updateVal (k : String) (f : α → α) : List (String × α) → List (String × α)
  | [] => []
  | p :: rest => if p.1 = k then (p.1, f p.2) :: rest else p :: updateVal k f rest

/-! ## Python `str.split()` (split on runs of whitespace, no empty tokens) -/

/-- Characters Python's `str.split()` treats as whitespace (the ASCII ones;
the server only ever receives decoded ASCII command text). -/
def isPySpace (c : Char) : Bool :=
  c = ' ' || c = '\t' || c = '\n' || c = '\r' || c = '\x0b' || c = '\x0c'

/-- Worker for `pySplit`: `acc` is the current (reversed) token. -/
def pySplitAux : List Char → List Char → List (List Char)
  | [], acc => if acc.isEmpty then [] else [acc.reverse]
  | c :: rest, acc =>
    if isPySpace c then
      if acc.isEmpty then pySplitAux rest [] else acc.reverse :: pySplitAux rest []
    else pySplitAux rest (c :: acc)

/-- `s.split()` in Python: whitespace-delimited tokens, never empty. -/
def pySplit (s : String) : List String :=
  (pySplitAux s.data []).map List.asString

/-- `s` contains a whitespace character. -/
def containsSpace (s : String) : Bool :=
  s.data.any isPySpace

/-! ## Data model

`Account.__init__` also creates a data lock and the transient `online` /
`client` session fields, and an inbox (`messages`); none of the operations
verified here read or write them, so they are not part of the embedding. -/

/-- Persistent account state (`Account.__init__`). -/
structure Account where
  administrator : Bool
  password : String
  contacts : List String
  forgiven : Nat
  deriving Repr, DecidableEq

/-- `ChannelLine(source, message)`. -/
structure ChannelLine where
  source : String
  message : String
  deriving Repr, DecidableEq

/-- A connected client as seen by a channel: `ident` stands for the
worker-thread identity (distinct per connection), `name` is the logged-in
account name.  Object identity (`is` / `is not`) on distinct connected
clients is equality on `ident`. -/
structure Client where
  ident : Nat
  name : String
  deriving Repr, DecidableEq

/-- The parts of `ChannelServer.__init__` state the verified operations
touch (locks and `status`/`admin_name` are not read by them). -/
structure Channel where
  channel_name : Option String
  owner : String
  password : String
  buffer : List ChannelLine
  buffer_size : Option Nat
  replay_size : Option Nat
  connected_clients : List Client
  muted_to_muter : List (String × List String)
  kicked : List String
  banned : List String
  deriving Repr, DecidableEq

/-- `ChannelServer(channel_name, owner)`: the initial field values from
`ChannelServer.__init__`. -/
def channelInit (channel_name owner : String) : Channel :=
  { channel_name := some channel_name
    owner := owner
    password := ""
    buffer := []
    buffer_size := none
    replay_size := some 10
    connected_clients := []
    muted_to_muter := []
    kicked := []
    banned := [] }

/-! ## Account registry: `OutsideMenu.do_register`, deletion cascade -/

/-- Outcome of `OutsideMenu.do_register` (which message the client saw). -/
inductive RegOutcome where
  | badName      -- "Username may not have whitespace!"
  | nameTaken    -- "Account already exists!"
  | badPassword  -- "Password may not have whitespace!" (assert failed)
  | success      -- logged in
  deriving Repr, DecidableEq

/-- `OutsideMenu.do_register` acting on the `ACCOUNTS` registry, given the
username and password the client supplies.  Mirrors the source: the name is
rejected when `len(name.split()) > 1`; a provisional
`Account(not bool(cls.ACCOUNTS))` is stored under `name`; the password must
satisfy `len(word.split()) == 1` or the provisional account is deleted
again; otherwise the account's password is set in place. -/
def do_register (name word : String) (accounts : List (String × Account)) :
    RegOutcome × List (String × Account) :=
  if (pySplit name).length > 1 then (.badName, accounts)
  else if hasKey name accounts then (.nameTaken, accounts)
  else
    let acct : Account :=
      { administrator := accounts.isEmpty
        password := ""
        contacts := []
        forgiven := 0 }
    let accounts1 := accounts ++ [(name, acct)]
    if (pySplit word).length = 1 then
      (.success, updateVal name (fun a => { a with password := word }) accounts1)
    else
      (.badPassword, eraseKey name accounts1)

/-- Inner loop of `OutsideMenu.clean_name_from_channels`: iterate over the
keys of `muted_to_muter`, remove `name` from each muter list, and delete a
key whose list becomes empty.  Deleting a key mutates the dict being
iterated, so CPython raises `RuntimeError` on the following iteration step:
the returned flag records that crash, and on a crash the remaining entries
are left unprocessed. -/
def cleanMuterLoop (name : String) :
    List (String × List String) → List (String × List String) × Bool
  | [] => ([], false)
  | (k, v) :: rest =>
    if name ∈ v then
      let v2 := v.erase name
      if v2.isEmpty then (rest, true)
      else
        let r := cleanMuterLoop name rest
        ((k, v2) :: r.1, r.2)
    else
      let r := cleanMuterLoop name rest
      ((k, v) :: r.1, r.2)

/-- Per-channel body of `OutsideMenu.clean_name_from_channels`: drop `name`
as a `muted_to_muter` key, remove every occurrence of `name` from `banned`
(the `while` loop), then run the muter-list sweep.  The flag reports the
`RuntimeError` described at `cleanMuterLoop`. -/
def clean_name_from_channel (name : String) (ch : Channel) : Channel × Bool :=
  let m1 := if hasKey name ch.muted_to_muter
    then eraseKey name ch.muted_to_muter else ch.muted_to_muter
  let b1 := ch.banned.filter (fun b => b ≠ name)
  let r := cleanMuterLoop name m1
  ({ ch with muted_to_muter := r.1, banned := b1 }, r.2)

/-- `OutsideMenu.clean_name_from_channels` over the channel list; an
uncaught `RuntimeError` in one channel aborts the sweep, leaving later
channels untouched. -/
def clean_name_from_channels (name : String) :
    List Channel → List Channel × Bool
  | [] => ([], false)
  | ch :: rest =>
    let r := clean_name_from_channel name ch
    if r.2 then (r.1 :: rest, true)
    else
      let rr := clean_name_from_channels name rest
      (r.1 :: rr.1, rr.2)

/-- `OutsideMenu.delete_account`: drop the registry binding, remove `name`
from every remaining account's contacts (`list.remove`, guarded by a
membership test), then purge the channels. -/
def delete_account (name : String) (accounts : List (String × Account))
    (channels : List Channel) :
    List (String × Account) × List Channel × Bool :=
  let accounts1 :=
    if hasKey name accounts then
      (eraseKey name accounts).map
        (fun p => (p.1, { p.2 with contacts := p.2.contacts.erase name }))
    else accounts
  let r := clean_name_from_channels name channels
  (accounts1, r.1, r.2)

/-! ## Inside menu: `do_admin` (forgiveness trap) and `do_channel` -/

/-- `InsideMenu.MAX_FORGIVENESS`. -/
def MAX_FORGIVENESS : Nat := 2

/-- Global server state the inside-menu `admin` command touches. -/
structure GlobalState where
  blocked : List String
  accounts : List (String × Account)
  channels : List Channel
  deriving Repr, DecidableEq

/-- How one `admin` invocation ended for the caller. -/
inductive AdminOutcome where
  | console          -- pushed the `AdminConsole`
  | warned           -- "You are not authorized to be here.", `EOFError` pop
  | trapped (closed : Bool)
      -- address blocked and account deleted; `closed` is whether
      -- `client.close()` ran (it does not if the purge raised)
  deriving Repr, DecidableEq

/-- `InsideMenu.do_admin` for a caller with account `acct`, logged-in name
`name`, source address `addr`.  A non-administrator whose `forgiven` has
reached `MAX_FORGIVENESS` has `addr` appended to `BanFilter.BLOCKED` and
the account deleted, then the connection closed (`close()` raises
`SystemExit`, so `forgiven` is not incremented on that path); otherwise
`forgiven` is incremented and an authorisation error is reported. -/
def do_admin (name addr : String) (acct : Account) (g : GlobalState) :
    AdminOutcome × Account × GlobalState :=
  if acct.administrator then (.console, acct, g)
  else if acct.forgiven ≥ MAX_FORGIVENESS then
    let d := delete_account name g.accounts g.channels
    (.trapped !d.2.2, acct,
      { blocked := g.blocked ++ [addr], accounts := d.1, channels := d.2.1 })
  else
    (.warned, { acct with forgiven := acct.forgiven + 1 }, g)

/-- Effect of `InsideMenu.do_channel` on the channel-name registry: `name`
is rejected when extra arguments were given or `len(name.split()) > 1` or
the name is empty (falsy); an existing name is joined, a fresh one gets the
next integer id.  Returns the registry, the next id, and whether the name
was accepted. -/
def do_channel (name : String) (argsLen : Nat)
    (channel_names : List (String × Nat)) (next : Nat) :
    List (String × Nat) × Nat × Bool :=
  if argsLen > 1 || (pySplit name).length > 1 then (channel_names, next, false)
  else if name ≠ "" then
    if hasKey name channel_names then (channel_names, next, true)
    else (channel_names ++ [(name, next)], next + 1, true)
  else (channel_names, next, false)

/-! ## Channel server operations -/

/-- `ChannelServer.builtin_buffer_limit`. -/
def builtin_buffer_limit : Nat := 10000

/-- The capacity `add_line` computes from `buffer_size`:
`min(buffer_size ?? 10000, 10000)`. -/
def effCapacity (bs : Option Nat) : Nat :=
  match bs with
  | none => builtin_buffer_limit
  | some n => min n builtin_buffer_limit

/-- `ChannelServer.add_line`: build the `ChannelLine`, and if the computed
capacity is non-zero (`if buffer_size:`), append it and trim the head
(`del self.buffer[:len(self.buffer)-buffer_size]`) when over capacity.
Returns the updated channel and the line (which the caller broadcasts). -/
def add_line (ch : Channel) (name line : String) : Channel × ChannelLine :=
  let buffer_size := effCapacity ch.buffer_size
  let channel_line : ChannelLine := { source := name, message := line }
  if buffer_size ≠ 0 then
    let b1 := ch.buffer ++ [channel_line]
    let b2 := if b1.length > buffer_size then b1.drop (b1.length - buffer_size)
      else b1
    ({ ch with buffer := b2 }, channel_line)
  else (ch, channel_line)

/-- `ChannelAdmin.do_buffer`: set `buffer_size` (no trimming). -/
def do_buffer (ch : Channel) (size : Option Nat) : Channel :=
  { ch with buffer_size := size }

/-- `ChannelAdmin.do_replay`: set `replay_size`. -/
def do_replay (ch : Channel) (size : Option Nat) : Channel :=
  { ch with replay_size := size }

/-- `ChannelServer.replay_buffer`: the lines echoed to an entering client —
the whole buffer when `replay_size` is `None`, the slice `buffer[-n:]` when
`replay_size = n > 0`, nothing otherwise. -/
def replay_buffer (ch : Channel) : List ChannelLine :=
  match ch.replay_size with
  | none => ch.buffer
  | some n => if n > 0 then ch.buffer.drop (ch.buffer.length - n) else []

/-- The `accept` predicate closed over by `ChannelServer.broadcast`. -/
def broadcast_accept (kicked muter : List String) (echo : Bool)
    (sender destination : Client) : Bool :=
  if destination.name ∈ kicked then false
  else if destination.name ∈ muter then false
  else if echo then true
  else destination ≠ sender

/-- `ChannelServer.broadcast`: the recipients that get
`channel_line.echo(...)` — the snapshot of `connected_clients` filtered by
`accept`, where `muter = muted_to_muter.get(channel_line.source, [])`. -/
def broadcast_recipients (ch : Channel) (channel_line : ChannelLine)
    (echo : Bool) (sender : Client) : List Client :=
  let muter := (aLookup channel_line.source ch.muted_to_muter).getD []
  ch.connected_clients.filter (broadcast_accept ch.kicked muter echo sender)

/-- The non-command branch of `ChannelServer.message_loop`: the line is
passed to `add_line` and the result is broadcast with `echo=True`,
whether or not the buffer stored it. -/
def message_step (ch : Channel) (sender : Client) (line : String) :
    Channel × List Client :=
  let r := add_line ch sender.name line
  (r.1, broadcast_recipients r.1 r.2 true sender)

/-- `ChannelServer.add_mute` acting on `muted_to_muter`; `accountExists`
is the value of `OutsideMenu.account_exists(muted)`.  An existing key gains
the caller at the end of its muter list if absent; a fresh key is bound to
`[client.name]`. -/
def add_mute (muted caller : String) (accountExists : Bool)
    (m2m : List (String × List String)) : List (String × List String) :=
  if accountExists then
    if hasKey muted m2m then
      updateVal muted
        (fun muters => if caller ∈ muters then muters else muters ++ [caller])
        m2m
    else m2m ++ [(muted, [caller])]
  else m2m

/-- `ChannelServer.del_mute`: for a non-empty (truthy) name, remove the
caller from the muter list of `muted` when present, deleting the key if the
list empties. -/
def del_mute (muted caller : String)
    (m2m : List (String × List String)) : List (String × List String) :=
  if muted ≠ "" then
    match aLookup muted m2m with
    | some muters =>
      if caller ∈ muters then
        let muters2 := muters.erase caller
        if muters2.isEmpty then eraseKey muted m2m
        else updateVal muted (fun _ => muters2) m2m
      else m2m
    | none => m2m
  else m2m

/-- `ChannelServer.add_ban` effect on the channel.  `protNotNone` is
`is_protected(name) is not None` (the target has an account); note the
source appends to `banned` even when the target is protected — only the
kick is subject to `do_kick`'s own protection check, abstracted here by
`kickApplies` (target connected and not protected). -/
def add_ban (name : String) (protNotNone kickApplies : Bool) (ch : Channel) :
    Channel :=
  if protNotNone then
    if name ∈ ch.banned then ch
    else
      let ch1 := { ch with banned := ch.banned ++ [name] }
      if kickApplies then { ch1 with kicked := ch1.kicked ++ [name] } else ch1
  else ch

/-- `ChannelServer.del_ban`: remove the (first) occurrence of `name`. -/
def del_ban (name : String) (ch : Channel) : Channel :=
  if name ∈ ch.banned then { ch with banned := ch.banned.erase name } else ch

/-- `ChannelAdmin.reset_channel` (as run by `do_reset`/`do_finalize`):
caller becomes owner and all moderation and buffer state is cleared. -/
def reset_channel (caller : String) (ch : Channel) : Channel :=
  { ch with
    owner := caller
    password := ""
    buffer := []
    buffer_size := none
    replay_size := some 10
    muted_to_muter := []
    banned := [] }

/-! ## Reachable channel states

Every statement in the source that writes a channel's moderation or buffer
fields, as a step relation: `add_ban` / `del_ban`, `add_mute` / `del_mute`,
the deletion cascade, `reset_channel`, the `kicked.append` sites
(`do_kick`, `do_close`, `do_reset`, `do_finalize`), the kicked-sweep in
`ChannelServer.handle`, the admin `buffer` / `replay` / `purge` setters and
`add_line`. -/

inductive ChanOp where
  | opAddBan (name : String) (protNotNone kickApplies : Bool)
  | opDelBan (name : String)
  | opAddMute (muted caller : String) (accountExists : Bool)
  | opDelMute (muted caller : String)
  | opCleanName (name : String)
  | opReset (caller : String)
  | opKick (name : String)
  | opUnkick (name : String)
  | opSetBuffer (size : Option Nat)
  | opSetReplay (size : Option Nat)
  | opPurge
  | opPostLine (name line : String)
  deriving Repr, DecidableEq

/-- One mutation step on a channel. -/
def applyOp (ch : Channel) : ChanOp → Channel
  | .opAddBan n p k => add_ban n p k ch
  | .opDelBan n => del_ban n ch
  | .opAddMute m c e =>
    { ch with muted_to_muter := add_mute m c e ch.muted_to_muter }
  | .opDelMute m c =>
    { ch with muted_to_muter := del_mute m c ch.muted_to_muter }
  | .opCleanName n => (clean_name_from_channel n ch).1
  | .opReset c => reset_channel c ch
  | .opKick n => { ch with kicked := ch.kicked ++ [n] }
  | .opUnkick n => { ch with kicked := ch.kicked.filter (fun k => k ≠ n) }
  | .opSetBuffer s => do_buffer ch s
  | .opSetReplay s => do_replay ch s
  | .opPurge => { ch with buffer := [] }
  | .opPostLine n l => (add_line ch n l).1

/-- The channel state reached from a fresh channel by a sequence of
operations. -/
def reachState (channel_name owner : String) (ops : List ChanOp) : Channel :=
  ops.foldl applyOp (channelInit channel_name owner)

/-! ## Line transport: `Client.send` -/

/-- `bytes.replace(pat, rep)` in Python: replace leftmost, non-overlapping
occurrences.  (`pat = []` returns the input unchanged; the source only ever
uses non-empty patterns.) -/
def pyReplace (pat rep : List Nat) : List Nat → List Nat
  | [] => []
  | c :: rest =>
    if h : pat ≠ [] ∧ pat.isPrefixOf (c :: rest) then
      rep ++ pyReplace pat rep ((c :: rest).drop pat.length)
    else c :: pyReplace pat rep rest
termination_by s => s.length
decreasing_by
  · simp only [List.length_drop, List.length_cons]
    have hpat : 1 ≤ pat.length := List.length_pos.mpr h.1
    omega
  · simp only [List.length_cons]
    omega

/-- Byte value of carriage return (`SEPARATOR[0]`). -/
def crByte : Nat := 13

/-- Byte value of line feed (`SEPARATOR[1]`, i.e. `SEPARATOR[-1:]`). -/
def lfByte : Nat := 10

/-- `Client.send`: the loop `for index in range(len(SEPARATOR), 0, -1):
text = text.replace(SEPARATOR[:index], SEPARATOR[-1:])` — i.e. CRLF→LF
then CR→LF — followed by `text.replace(SEPARATOR[-1:], SEPARATOR)`
(LF→CRLF), whose result is handed to `sendall`. -/
def clientSend (text : List Nat) : List Nat :=
  let t1 := pyReplace [crByte, lfByte] [lfByte] text
  let t2 := pyReplace [crByte] [lfByte] t1
  pyReplace [lfByte] [crByte, lfByte] t2

/-- Modelled from the spec: "the payload actually written equals the input
with every occurrence of a lone CR, a lone LF, or an existing CRLF replaced
by exactly one CRLF" — a left-to-right scan replacing each CRLF pair, lone
CR, or lone LF by CRLF. -/
def normalizeCRLF : List Nat → List Nat
  | [] => []
  | [c] => if c = 13 ∨ c = 10 then [13, 10] else [c]
  | c :: d :: rest =>
    if c = 13 ∧ d = 10 then 13 :: 10 :: normalizeCRLF rest
    else if c = 13 ∨ c = 10 then 13 :: 10 :: normalizeCRLF (d :: rest)
    else c :: normalizeCRLF (d :: rest)

/-- Intermediate form: the combined effect of the CRLF→LF pass. -/
def collapseCRLF : List Nat → List Nat
  | [] => []
  | [c] => [c]
  | c :: d :: rest =>
    if c = 13 ∧ d = 10 then 10 :: collapseCRLF rest
    else c :: collapseCRLF (d :: rest)

/-- Pointwise single-byte replacement (what `bytes.replace` does for a
one-byte pattern). -/
def mapReplace (a : Nat) (rep : List Nat) : List Nat → List Nat
  | [] => []
  | c :: rest => (if c = a then rep else [c]) ++ mapReplace a rep rest

theorem aLookup_append_right (k : String) (m m' : List (String × α))
    (h : aLookup k m = none) : aLookup k (m ++ m') = aLookup k m' := by
  induction m with
  | nil => rfl
  | cons p rest ih =>
    by_cases hp : p.1 = k
    · simp [aLookup, hp] at h
    · simp only [aLookup, hp, if_false, List.cons_append] at h ⊢
      exact ih h

theorem aLookup_append_left (k : String) (m m' : List (String × α)) (v : α)
    (h : aLookup k m = some v) : aLookup k (m ++ m') = some v := by
  induction m with
  | nil => simp [aLookup] at h
  | cons p rest ih =>
    by_cases hp : p.1 = k
    · simp only [aLookup, hp, if_true] at h ⊢
      exact h
    · simp only [aLookup, hp, if_false, List.cons_append] at h ⊢
      exact ih h

theorem eraseKey_append_of_not_mem (k : String) (m m' : List (String × α))
    (h : aLookup k m = none) : eraseKey k (m ++ m') = m ++ eraseKey k m' := by
  induction m with
  | nil => rfl
  | cons p rest ih =>
    by_cases hp : p.1 = k
    · simp [aLookup, hp] at h
    · simp only [aLookup, hp, if_false] at h
      simp [eraseKey, hp, ih h]

theorem updateVal_append_of_not_mem (k : String) (f : α → α)
    (m m' : List (String × α)) (h : aLookup k m = none) :
    updateVal k f (m ++ m') = m ++ updateVal k f m' := by
  induction m with
  | nil => rfl
  | cons p rest ih =>
    by_cases hp : p.1 = k
    · simp [aLookup, hp] at h
    · simp only [aLookup, hp, if_false] at h
      simp [updateVal, hp, ih h]

theorem aLookup_updateVal_self (k : String) (f : α → α)
    (m : List (String × α)) (v : α) (h : aLookup k m = some v) :
    aLookup k (updateVal k f m) = some (f v) := by
  induction m with
  | nil => simp [aLookup] at h
  | cons p rest ih =>
    obtain ⟨a, b⟩ := p
    by_cases hp : a = k
    · simp only [aLookup, hp, if_true, Option.some.injEq] at h
      simp [updateVal, hp, aLookup, h]
    · simp only [aLookup, hp, if_false] at h
      simp [updateVal, hp, aLookup, ih h]

theorem updateVal_updateVal (k : String) (f g : α → α)
    (m : List (String × α)) :
    updateVal k f (updateVal k g m) = updateVal k (f ∘ g) m := by
  induction m with
  | nil => rfl
  | cons p rest ih =>
    by_cases hp : p.1 = k
    · simp [updateVal, hp]
    · simp [updateVal, hp, ih]

theorem updateVal_const_of_aLookup (k : String) (m : List (String × α))
    (v : α) (h : aLookup k m = some v) :
    updateVal k (fun _ => v) m = m := by
  induction m with
  | nil => rfl
  | cons p rest ih =>
    obtain ⟨a, b⟩ := p
    by_cases hp : a = k
    · simp only [aLookup, hp, if_true, Option.some.injEq] at h
      simp [updateVal, hp, ← h]
    · simp only [aLookup, hp, if_false] at h
      simp [updateVal, hp, ih h]

theorem mem_keys_iff_hasKey (k : String) (m : List (String × α)) :
    k ∈ m.map Prod.fst ↔ hasKey k m = true := by
  induction m with
  | nil => simp [hasKey, aLookup]
  | cons p rest ih =>
    by_cases hp : p.1 = k
    · simp [hasKey, aLookup, hp]
    · simp only [List.map_cons, List.mem_cons, hasKey, aLookup, hp, if_false]
      constructor
      · intro h
        rcases h with h | h
        · exact absurd h.symm hp
        · exact (ih.mp h)
      · intro h
        exact Or.inr (ih.mpr h)

theorem pyReplace_nil (pat rep : List Nat) : pyReplace pat rep [] = [] := by
  rw [pyReplace]

theorem pyReplace_cons (pat rep : List Nat) (c : Nat) (rest : List Nat) :
    pyReplace pat rep (c :: rest) =
      if pat ≠ [] ∧ pat.isPrefixOf (c :: rest) then
        rep ++ pyReplace pat rep ((c :: rest).drop pat.length)
      else c :: pyReplace pat rep rest := by
  rw [pyReplace]
  split <;> rfl

theorem pyReplace_single (a : Nat) (rep : List Nat) (s : List Nat) :
    pyReplace [a] rep s = mapReplace a rep s := by
  induction s with
  | nil => rw [pyReplace_nil]; rfl
  | cons c rest ih =>
    rw [pyReplace_cons]
    by_cases hc : a = c
    · subst hc
      simp [List.isPrefixOf, mapReplace, ih]
    · simp [List.isPrefixOf, beq_iff_eq, hc, mapReplace, ih, Ne.symm hc]

theorem pyReplace_crlf_aux :
    ∀ n s, List.length s ≤ n → pyReplace [13, 10] [10] s = collapseCRLF s := by
  intro n
  induction n with
  | zero =>
    intro s hs
    have : s = [] := List.eq_nil_of_length_eq_zero (Nat.le_zero.mp hs)
    subst this
    rw [pyReplace_nil]; rfl
  | succ n ih =>
    intro s hs
    cases s with
    | nil => rw [pyReplace_nil]; rfl
    | cons c rest =>
      cases rest with
      | nil =>
        rw [pyReplace_cons]
        simp [List.isPrefixOf, collapseCRLF, pyReplace_nil]
      | cons d rest' =>
        simp only [List.length_cons] at hs
        by_cases hc : c = 13
        · by_cases hd : d = 10
          · subst hc; subst hd
            rw [pyReplace_cons]
            simp only [List.isPrefixOf, List.drop, collapseCRLF]
            simp only [ne_eq, List.cons_ne_nil, not_false_iff, true_and,
              beq_self_eq_true, Bool.and_self, if_true]
            rw [ih rest' (by omega)]
            rfl
          · subst hc
            rw [pyReplace_cons]
            simp [List.isPrefixOf, beq_iff_eq, hd, Ne.symm hd, collapseCRLF,
              ih (10 :: rest') (by simp; omega), ih (d :: rest') (by simp; omega)]
        · rw [pyReplace_cons]
          simp [List.isPrefixOf, beq_iff_eq, Ne.symm hc, collapseCRLF, hc,
            ih (d :: rest') (by simp; omega)]

theorem mapReplace_collapse_aux :
    ∀ n s, List.length s ≤ n →
      mapReplace 10 [13, 10] (mapReplace 13 [10] (collapseCRLF s)) =
        normalizeCRLF s := by
  intro n
  induction n with
  | zero =>
    intro s hs
    have : s = [] := List.eq_nil_of_length_eq_zero (Nat.le_zero.mp hs)
    subst this
    rfl
  | succ n ih =>
    intro s hs
    cases s with
    | nil => rfl
    | cons c rest =>
      cases rest with
      | nil =>
        by_cases hc : c = 13
        · subst hc; rfl
        · by_cases hc10 : c = 10
          · subst hc10; rfl
          · simp [collapseCRLF, mapReplace, normalizeCRLF, hc, hc10]
      | cons d rest' =>
        simp only [List.length_cons] at hs
        by_cases hcd : c = 13 ∧ d = 10
        · obtain ⟨hc, hd⟩ := hcd
          subst hc; subst hd
          have hcol : collapseCRLF (13 :: 10 :: rest') = 10 :: collapseCRLF rest' := by
            simp [collapseCRLF]
          rw [hcol]
          simp [mapReplace, normalizeCRLF, ih rest' (by omega)]
        · have hcol : collapseCRLF (c :: d :: rest') = c :: collapseCRLF (d :: rest') := by
            simp [collapseCRLF, hcd]
          rw [hcol]
          by_cases hc : c = 13
          · subst hc
            have hd : ¬d = 10 := fun h => hcd ⟨rfl, h⟩
            simp [mapReplace, normalizeCRLF, hd, ih (d :: rest') (by simp; omega)]
          · by_cases hc10 : c = 10
            · subst hc10
              simp [mapReplace, normalizeCRLF, hc,
                ih (d :: rest') (by simp; omega)]
            · simp [mapReplace, normalizeCRLF, hc, hc10,
                ih (d :: rest') (by simp; omega)]

theorem aLookup_mem (k : String) (m : List (String × α)) (v : α)
    (h : aLookup k m = some v) : (k, v) ∈ m := by
  induction m with
  | nil => simp [aLookup] at h
  | cons p rest ih =>
    obtain ⟨a, b⟩ := p
    by_cases hp : a = k
    · simp only [aLookup, hp, if_true, Option.some.injEq] at h
      subst hp; subst h
      exact List.mem_cons_self _ _
    · simp only [aLookup, hp, if_false] at h
      exact List.mem_cons_of_mem _ (ih h)

theorem hasKey_false_iff (k : String) (m : List (String × α)) :
    hasKey k m = false ↔ aLookup k m = none := by
  unfold hasKey
  cases aLookup k m <;> simp

theorem hasKey_eraseKey_self (k : String) (m : List (String × α))
    (h : (m.map Prod.fst).Nodup) : hasKey k (eraseKey k m) = false := by
  induction m with
  | nil => rfl
  | cons p rest ih =>
    simp only [List.map_cons, List.nodup_cons] at h
    by_cases hp : p.1 = k
    · rw [hasKey_false_iff]
      simp only [eraseKey, hp, if_true]
      rcases hv : aLookup k rest with _ | v
      · rfl
      · exact absurd (hp ▸ List.mem_map_of_mem Prod.fst (aLookup_mem k rest v hv))
          h.1
    · simp only [eraseKey, hp, if_false]
      rw [hasKey_false_iff] at ih ⊢
      simp only [aLookup, hp, if_false]
      exact ih h.2

theorem keys_map_keepFst (g : String × α → β) (m : List (String × α)) :
    (m.map (fun p => (p.1, g p))).map Prod.fst = m.map Prod.fst := by
  induction m with
  | nil => rfl
  | cons p rest ih => simp [ih]

theorem hasKey_map_keepFst (k : String) (g : String × α → β)
    (m : List (String × α)) :
    hasKey k (m.map (fun p => (p.1, g p))) = hasKey k m := by
  induction m with
  | nil => rfl
  | cons p rest ih =>
    by_cases hp : p.1 = k <;>
      simp [hasKey, aLookup, hp] at ih ⊢ <;> exact ih

theorem erase_append_of_not_mem [DecidableEq α] (a : α) (l₁ l₂ : List α)
    (h : a ∉ l₁) : (l₁ ++ l₂).erase a = l₁ ++ l₂.erase a := by
  induction l₁ with
  | nil => rfl
  | cons b t ih =>
    simp only [List.mem_cons, not_or] at h
    simp only [List.cons_append, List.erase_cons]
    have : (b == a) = false := by simp [Ne.symm h.1, h.1]
    simp [this, ih h.2]

/-- `accept` in `ChannelServer.broadcast`, characterised. -/
theorem broadcast_accept_iff (kicked muter : List String) (echo : Bool)
    (sender dest : Client) :
    broadcast_accept kicked muter echo sender dest = true ↔
      dest.name ∉ kicked ∧ dest.name ∉ muter ∧
        (echo = true ∨ dest ≠ sender) := by
  unfold broadcast_accept
  by_cases h1 : dest.name ∈ kicked <;> by_cases h2 : dest.name ∈ muter <;>
    by_cases h3 : echo = true <;> simp [h1, h2, h3]

/-! ## Claim theorems -/

/-- C4 (corrected): a connected recipient gets a broadcast line iff they
are not in `kicked`, not in the muter list that `muted_to_muter` stores
under the *source field* of the line (the literal `EVENT` for event lines,
the sender's name for plain messages), and — when `echo` is off, as for
EVENT lines — they are not the sending client; plain messages are sent with
`echo` on, so the sender hears their own message. -/
theorem broadcast_recipient_iff (ch : Channel) (line : ChannelLine)
    (echo : Bool) (sender dest : Client) :
    dest ∈ broadcast_recipients ch line echo sender ↔
      dest ∈ ch.connected_clients
      ∧ dest.name ∉ ch.kicked
      ∧ dest.name ∉ (aLookup line.source ch.muted_to_muter).getD []
      ∧ (echo = true ∨ dest ≠ sender) := by
  unfold broadcast_recipients
  rw [List.mem_filter, broadcast_accept_iff]

/-- C4 counterexample: bob has muted alice
(`muted_to_muter = {"alice": ["bob"]}`), yet bob still receives the EVENT
line `[EVENT] alice is joining.` broadcast when alice joins, because the
mute filter keys on the line's source field `"EVENT"`, not on alice — the
claimed "recipient not in `muted_to_muter[U]`" condition does not hold for
EVENT lines originating with user U. -/
theorem broadcast_event_ignores_mute :
    let alice : Client := ⟨1, "alice"⟩
    let bob : Client := ⟨2, "bob"⟩
    let ch : Channel :=
      { channelInit "main" "alice" with
        connected_clients := [⟨1, "alice"⟩, ⟨2, "bob"⟩]
        muted_to_muter := [("alice", ["bob"])] }
    bob ∈ broadcast_recipients ch ⟨"EVENT", "alice is joining."⟩ false alice
    ∧ "bob" ∈ (aLookup "alice" ch.muted_to_muter).getD [] := by
  decide

/-- C5: on entry, replay emits `buffer[-n:]` — the last `n` buffered lines
in order — when `replay_size = n > 0`, the entire buffer when `replay_size`
is null, and nothing when it is `0`; with twelve buffered lines and the
default `replay_size = 10`, a joining user receives lines 3 through 12. -/
theorem replay_buffer_policy :
    (∀ ch : Channel, ch.replay_size = none → replay_buffer ch = ch.buffer)
    ∧ (∀ ch : Channel, ch.replay_size = some 0 → replay_buffer ch = [])
    ∧ (∀ (ch : Channel) (n : Nat), ch.replay_size = some n → 0 < n →
        replay_buffer ch = ch.buffer.rtake n)
    ∧ (∀ lines : List ChannelLine, lines.length = 12 →
        replay_buffer { channelInit "main" "alice" with buffer := lines } =
          lines.drop 2) := by
  refine ⟨fun ch h => ?_, fun ch h => ?_, fun ch n h hn => ?_,
    fun lines hlen => ?_⟩
  · simp [replay_buffer, h]
  · simp [replay_buffer, h]
  · simp [replay_buffer, h, hn, List.rtake]
  · simp [replay_buffer, channelInit, hlen]

/-- C5 witness: all four replay cases at concrete channels, including the
twelve-line scenario. -/
theorem replay_buffer_policy_witness :
    (replay_buffer { channelInit "m" "o" with
        replay_size := none, buffer := [⟨"o", "a"⟩] } = [⟨"o", "a"⟩])
    ∧ (replay_buffer { channelInit "m" "o" with
        replay_size := some 0, buffer := [⟨"o", "a"⟩] } = [])
    ∧ (replay_buffer { channelInit "m" "o" with
        replay_size := some 1, buffer := [⟨"o", "a"⟩, ⟨"o", "b"⟩] } =
          List.rtake [⟨"o", "a"⟩, ⟨"o", "b"⟩] 1)
    ∧ (replay_buffer { channelInit "main" "alice" with
        buffer := (List.range 12).map
          (fun i => ⟨"alice", "L" ++ toString (i + 1)⟩) } =
      ((List.range 12).map
        (fun i => (⟨"alice", "L" ++ toString (i + 1)⟩ : ChannelLine))).drop
        2) :=
  ⟨replay_buffer_policy.1 _ rfl, replay_buffer_policy.2.1 _ rfl,
    replay_buffer_policy.2.2.1 _ 1 rfl (by decide),
    replay_buffer_policy.2.2.2 _ (by decide)⟩

/-- C8: the payload `Client.send` hands to `sendall` is the input with
every lone CR, lone LF, or existing CRLF replaced by exactly one CRLF
(so no bare CR or LF survives and no CRLF is doubled). -/
theorem clientSend_normalizes (text : List Nat) :
    clientSend text = normalizeCRLF text := by
  unfold clientSend crByte lfByte
  rw [pyReplace_crlf_aux text.length text le_rfl, pyReplace_single,
    pyReplace_single]
  exact mapReplace_collapse_aux text.length text le_rfl

/-- C1 (code bug): `delete_account` is documented to "remove all references
to name in channels", but the purge never touches `kicked`.  At the failing
input — carol registered, in dave's contacts, banned and kicked on one
channel — deleting carol removes her from dave's contacts and from
`banned`, yet `"carol"` is still in the channel's `kicked` list
afterwards. -/
theorem delete_account_misses_kicked :
    delete_account "carol"
        [("carol", ⟨false, "pw", [], 0⟩), ("dave", ⟨false, "pw2", ["carol"], 0⟩)]
        [{ channelInit "main" "dave" with
            kicked := ["carol"], banned := ["carol"] }] =
      ([("dave", ⟨false, "pw2", [], 0⟩)],
        [{ channelInit "main" "dave" with kicked := ["carol"], banned := [] }],
        false)
    ∧ ∀ ch ∈ (delete_account "carol"
          [("carol", ⟨false, "pw", [], 0⟩),
            ("dave", ⟨false, "pw2", ["carol"], 0⟩)]
          [{ channelInit "main" "dave" with
              kicked := ["carol"], banned := ["carol"] }]).2.1,
        "carol" ∈ ch.kicked := by
  decide

/-- C2 counterexample: a line is stored while `buffer_size` is unlimited,
an admin then sets `buffer_size = 0`, and a further `add_line` leaves the
old line in place — the buffer has length 1 although the claimed bound
`min(buffer_size ?? 10000, 10000)` is 0. -/
theorem add_line_cap_zero_counterexample :
    let ch3 := (add_line (do_buffer (add_line (channelInit "main" "alice")
      "alice" "L1").1 (some 0)) "alice" "L2").1
    ch3.buffer.length = 1 ∧ effCapacity ch3.buffer_size = 0 := by
  decide

/-- C2 (amended): after `add_line` the buffer length is at most
`min(buffer_size ?? 10000, 10000)` whenever that capacity is non-zero;
when the capacity is zero the incoming line is not appended (the buffer —
including any lines stored before the size was lowered to zero — is left
unchanged) while the message loop still broadcasts the line to
recipients. -/
theorem add_line_capacity (ch : Channel) (name line : String) :
    (effCapacity ch.buffer_size ≠ 0 →
      (add_line ch name line).1.buffer.length ≤ effCapacity ch.buffer_size)
    ∧ (effCapacity ch.buffer_size = 0 →
      (add_line ch name line).1.buffer = ch.buffer
      ∧ ∀ sender : Client, sender.name = name →
          (message_step ch sender line).2 =
            broadcast_recipients ch ⟨name, line⟩ true sender) := by
  constructor
  · intro hcap
    unfold add_line
    simp only [hcap, if_true, ne_eq, not_false_iff]
    split
    · next hgt => simp only [List.length_drop]; omega
    · next hle => simp only [not_lt] at hle; simpa using hle
  · intro hcap
    constructor
    · unfold add_line
      simp [hcap]
    · intro sender hsn
      subst hsn
      unfold message_step add_line
      simp [hcap]

/-- C2 witness: the capacity bound at a fresh channel, and the cap-zero
no-store-still-broadcast behaviour at a channel whose size was zeroed. -/
theorem add_line_capacity_witness :
    ((add_line (channelInit "main" "alice") "alice" "L1").1.buffer.length ≤
      effCapacity (channelInit "main" "alice").buffer_size)
    ∧ ((add_line { channelInit "main" "alice" with buffer_size := some 0 }
          "alice" "L1").1.buffer =
        ({ channelInit "main" "alice" with buffer_size := some 0 } :
          Channel).buffer
      ∧ (message_step
            { channelInit "main" "alice" with buffer_size := some 0 }
            ⟨1, "alice"⟩ "L1").2 =
          broadcast_recipients
            { channelInit "main" "alice" with buffer_size := some 0 }
            ⟨"alice", "L1"⟩ true ⟨1, "alice"⟩) :=
  ⟨(add_line_capacity (channelInit "main" "alice") "alice" "L1").1
      (by decide),
    ((add_line_capacity { channelInit "main" "alice" with buffer_size := some 0 }
        "alice" "L1").2 (by decide)).1,
    ((add_line_capacity { channelInit "main" "alice" with buffer_size := some 0 }
        "alice" "L1").2 (by decide)).2 ⟨1, "alice"⟩ rfl⟩

/-- C3 counterexample: a non-administrator starting at `forgiven = 0` runs
`admin` twice; after the second invocation she has only been warned — her
address is not on the ban list and her account still exists (the trap fires
on the third invocation, since `forgiven >= MAX_FORGIVENESS` is tested
before the increment). -/
theorem do_admin_second_attempt_only_warns :
    let g : GlobalState := ⟨[], [("carol", ⟨false, "pw", [], 0⟩)], []⟩
    let r1 := do_admin "carol" "1.2.3.4" ⟨false, "pw", [], 0⟩ g
    let r2 := do_admin "carol" "1.2.3.4" r1.2.1 r1.2.2
    r2.1 = .warned ∧ r2.2.2.blocked = []
    ∧ hasKey "carol" r2.2.2.accounts = true := by
  decide

/-- C3 (amended): for a non-administrator starting at `forgiven = 0`, the
first two `admin` invocations each increment `forgiven` and report an
authorisation error, and the third appends the caller's source address to
the ban list, deletes the caller's account, and closes the connection
(assuming the channel purge raises no `RuntimeError`). -/
theorem do_admin_forgiveness_trap (name addr : String) (acct : Account)
    (g : GlobalState)
    (hadm : acct.administrator = false) (hforg : acct.forgiven = 0)
    (hkeys : (g.accounts.map Prod.fst).Nodup)
    (hnocrash : (clean_name_from_channels name g.channels).2 = false) :
    let r1 := do_admin name addr acct g
    let r2 := do_admin name addr r1.2.1 r1.2.2
    let r3 := do_admin name addr r2.2.1 r2.2.2
    r1.1 = .warned ∧ r1.2.1.forgiven = 1 ∧ r1.2.2 = g
    ∧ r2.1 = .warned ∧ r2.2.1.forgiven = 2 ∧ r2.2.2 = g
    ∧ r3.1 = .trapped true
    ∧ r3.2.2.blocked = g.blocked ++ [addr]
    ∧ hasKey name r3.2.2.accounts = false := by
  have h1 : do_admin name addr acct g =
      (.warned, { acct with forgiven := 1 }, g) := by
    unfold do_admin
    simp [hadm, hforg, MAX_FORGIVENESS]
  have h2 : do_admin name addr { acct with forgiven := 1 } g =
      (.warned, { acct with forgiven := 2 }, g) := by
    unfold do_admin
    simp [hadm, MAX_FORGIVENESS]
  simp only [h1, h2]
  refine ⟨trivial, trivial, trivial, trivial, trivial, trivial, ?_, ?_, ?_⟩
  · unfold do_admin
    simp [hadm, MAX_FORGIVENESS, delete_account, hnocrash]
  · unfold do_admin
    simp [hadm, MAX_FORGIVENESS]
  · unfold do_admin
    simp only [hadm, MAX_FORGIVENESS, if_false, Bool.false_eq_true, ge_iff_le,
      Nat.le_refl, if_true]
    unfold delete_account
    rcases hk : hasKey name g.accounts with _ | _
    · simp [hk]
    · simp only [hk, if_true]
      rw [hasKey_map_keepFst]
      exact hasKey_eraseKey_self name g.accounts hkeys

/-- C3 witness: the trap sequence starting from carol's fresh account. -/
theorem do_admin_forgiveness_trap_witness :
    let g : GlobalState := ⟨[], [("carol", ⟨false, "pw", [], 0⟩)], []⟩
    let r1 := do_admin "carol" "1.2.3.4" ⟨false, "pw", [], 0⟩ g
    let r2 := do_admin "carol" "1.2.3.4" r1.2.1 r1.2.2
    let r3 := do_admin "carol" "1.2.3.4" r2.2.1 r2.2.2
    r1.1 = .warned ∧ r1.2.1.forgiven = 1 ∧ r1.2.2 = g
    ∧ r2.1 = .warned ∧ r2.2.1.forgiven = 2 ∧ r2.2.2 = g
    ∧ r3.1 = .trapped true
    ∧ r3.2.2.blocked = g.blocked ++ ["1.2.3.4"]
    ∧ hasKey "carol" r3.2.2.accounts = false :=
  do_admin_forgiveness_trap "carol" "1.2.3.4" ⟨false, "pw", [], 0⟩
    ⟨[], [("carol", ⟨false, "pw", [], 0⟩)], []⟩ rfl rfl (by decide) rfl

/-- C6 counterexample: if the caller has already muted X, `mute add X` is a
no-op ("was already muted") but `mute del X` still removes the pre-existing
entry, so the pair of commands does not restore `muted_to_muter`. -/
theorem mute_roundtrip_counterexample :
    del_mute "x" "c" (add_mute "x" "c" true [("x", ["c"])]) = []
    ∧ ([] : List (String × List String)) ≠ [("x", ["c"])] := by
  decide

/-- C6 (amended): provided the caller is not already among X's muters, X is
non-empty, and no muter list in the channel is empty (the code's own
invariant), `mute add X` followed by `mute del X` by the same caller
restores `muted_to_muter` exactly. -/
theorem mute_add_del_roundtrip (m2m : List (String × List String))
    (X caller : String) (hX : X ≠ "")
    (hnm : caller ∉ (aLookup X m2m).getD [])
    (hwf : ∀ p ∈ m2m, p.2 ≠ []) :
    del_mute X caller (add_mute X caller true m2m) = m2m := by
  rcases h : aLookup X m2m with _ | v
  · have hk : hasKey X m2m = false := (hasKey_false_iff X m2m).mpr h
    unfold add_mute
    simp only [if_true, hk, Bool.false_eq_true, if_false]
    unfold del_mute
    rw [if_pos hX, aLookup_append_right X m2m _ h]
    simp only [aLookup, if_pos rfl, if_true]
    rw [eraseKey_append_of_not_mem X m2m _ h]
    simp [List.erase, eraseKey]
  · have hcv : caller ∉ v := by
      rw [h] at hnm
      simpa using hnm
    have hv : v ≠ [] := hwf (X, v) (aLookup_mem X m2m v h)
    have hk : hasKey X m2m = true := by unfold hasKey; rw [h]; rfl
    unfold add_mute
    simp only [if_true, hk]
    unfold del_mute
    rw [if_pos hX, aLookup_updateVal_self X _ m2m v h]
    simp only [hcv, if_false]
    have hmem : caller ∈ v ++ [caller] := by simp
    simp only [hmem, if_true]
    rw [erase_append_of_not_mem caller v [caller] hcv]
    simp only [List.erase_cons_head, List.append_nil, List.isEmpty_iff, hv,
      if_false]
    rw [updateVal_updateVal]
    exact updateVal_const_of_aLookup X m2m v h

/-- C6 witness: the round trip at a concrete state where caller c has not
muted x. -/
theorem mute_add_del_roundtrip_witness :
    del_mute "x" "c" (add_mute "x" "c" true [("y", ["z"])]) = [("y", ["z"])] :=
  mute_add_del_roundtrip [("y", ["z"])] "x" "c" (by decide) (by decide)
    (by decide)

/-- Every channel mutation keeps `banned` duplicate-free. -/
theorem applyOp_banned_nodup (ch : Channel) (op : ChanOp)
    (h : ch.banned.Nodup) : (applyOp ch op).banned.Nodup := by
  cases op with
  | opAddBan n p k =>
    cases p with
    | false => simpa [applyOp, add_ban] using h
    | true =>
      by_cases hmem : n ∈ ch.banned
      · simpa [applyOp, add_ban, hmem] using h
      · have hnd : (ch.banned ++ [n]).Nodup := by
          rw [← List.concat_eq_append]
          exact List.Nodup.concat hmem h
        cases k <;> simp [applyOp, add_ban, hmem, hnd]
  | opDelBan n =>
    by_cases hmem : n ∈ ch.banned
    · simp only [applyOp, del_ban, hmem, if_true]
      exact List.Nodup.sublist (ch.banned.erase_sublist n) h
    · simpa [applyOp, del_ban, hmem] using h
  | opAddMute m c e => simpa [applyOp] using h
  | opDelMute m c => simpa [applyOp] using h
  | opCleanName n =>
    simp only [applyOp, clean_name_from_channel]
    exact List.Nodup.filter _ h
  | opReset c => simp [applyOp, reset_channel]
  | opKick n => simpa [applyOp] using h
  | opUnkick n => simpa [applyOp] using h
  | opSetBuffer s => simpa [applyOp, do_buffer] using h
  | opSetReplay s => simpa [applyOp, do_replay] using h
  | opPurge => simpa [applyOp] using h
  | opPostLine n l =>
    simp only [applyOp, add_line]
    split <;> simpa using h

theorem foldl_banned_nodup (ops : List ChanOp) :
    ∀ ch : Channel, ch.banned.Nodup →
      (ops.foldl applyOp ch).banned.Nodup := by
  induction ops with
  | nil => intro ch h; exact h
  | cons op rest ih =>
    intro ch h
    exact ih (applyOp ch op) (applyOp_banned_nodup ch op h)

/-- C7 (amended): in every reachable channel state each account name
appears at most once in `banned`; the second half of the claim fails —
nothing prevents a self-mute entry (see the counterexample). -/
theorem reachState_banned_count (channel_name owner : String)
    (ops : List ChanOp) (A : String) :
    ((reachState channel_name owner ops).banned.count A) ≤ 1 := by
  have h : (reachState channel_name owner ops).banned.Nodup :=
    foldl_banned_nodup ops (channelInit channel_name owner) (by simp [channelInit])
  exact List.nodup_iff_count_le_one.mp h A

/-- C7 counterexample: the state reached by the single operation
`mute add x` issued by user x himself has `"x"` both as a
`muted_to_muter` key and inside the muter list stored under that key — the
no-self-mute half of the invariant does not hold. -/
theorem reachState_self_mute :
    let s := reachState "main" "alice" [.opAddMute "x" "x" true]
    hasKey "x" s.muted_to_muter = true
    ∧ "x" ∈ (aLookup "x" s.muted_to_muter).getD [] := by
  decide

/-- C9 counterexample: `register` accepts the name `" "` — a non-empty
string consisting of whitespace — because the only check is
`len(name.split()) > 1`; the `channel` command accepts it too (it is
truthy). -/
theorem register_accepts_whitespace_name :
    (do_register " " "pw" []).1 = .success
    ∧ containsSpace " " = true ∧ " " ≠ ""
    ∧ (do_channel " " 0 [] 1).2.2 = true
    ∧ (do_channel " " 0 [] 1).1 = [(" ", 1)] := by
  decide

/-- C9 (amended): `register` rejects a name exactly when it splits into
more than one whitespace-delimited token (so names that are empty, all
whitespace, or whitespace-padded are accepted); `channel` additionally
rejects the empty name; and both registries stay duplicate-free — an
existing account or channel name never gains a second entry. -/
theorem name_validation_and_uniqueness (name word : String)
    (accounts : List (String × Account)) (chans : List (String × Nat))
    (next argsLen : Nat)
    (ha : (accounts.map Prod.fst).Nodup) (hc : (chans.map Prod.fst).Nodup) :
    ((do_register name word accounts).2.map Prod.fst).Nodup
    ∧ (hasKey name accounts = true →
        (do_register name word accounts).2 = accounts)
    ∧ ((do_register name word accounts).1 ≠ .badName ↔
        (pySplit name).length ≤ 1)
    ∧ ((do_channel name argsLen chans next).1.map Prod.fst).Nodup
    ∧ (hasKey name chans = true →
        (do_channel name argsLen chans next).1 = chans)
    ∧ ((do_channel name argsLen chans next).2.2 = true →
        (pySplit name).length ≤ 1 ∧ name ≠ "") := by
  have hreg : ((do_register name word accounts).2.map Prod.fst).Nodup
      ∧ (hasKey name accounts = true →
          (do_register name word accounts).2 = accounts)
      ∧ ((do_register name word accounts).1 ≠ .badName ↔
          (pySplit name).length ≤ 1) := by
    by_cases hbn : (pySplit name).length > 1
    · have hres : do_register name word accounts = (.badName, accounts) := by
        simp [do_register, hbn]
      rw [hres]
      refine ⟨ha, fun _ => rfl, ?_⟩
      simp only [ne_eq]
      simp
      omega
    · have hle : (pySplit name).length ≤ 1 := by omega
      rcases hk : hasKey name accounts with _ | _
      · have hnone : aLookup name accounts = none :=
          (hasKey_false_iff name accounts).mp hk
        have hnin : name ∉ accounts.map Prod.fst := by
          rw [mem_keys_iff_hasKey, hk]
          simp
        have hnd : (accounts.map Prod.fst ++ [name]).Nodup := by
          rw [← List.concat_eq_append]
          exact List.Nodup.concat hnin ha
        by_cases hw : (pySplit word).length = 1
        · have hupd : updateVal name
              (fun a => { a with password := word })
              (accounts ++ [(name,
                { administrator := accounts.isEmpty, password := "",
                  contacts := [], forgiven := 0 })]) =
              accounts ++ [(name,
                { administrator := accounts.isEmpty, password := word,
                  contacts := [], forgiven := 0 })] := by
            rw [updateVal_append_of_not_mem name _ accounts _ hnone]
            simp [updateVal]
          have hres : do_register name word accounts =
              (.success, accounts ++ [(name,
                { administrator := accounts.isEmpty, password := word,
                  contacts := [], forgiven := 0 })]) := by
            simp [do_register, hbn, hk, hw, hupd]
          rw [hres]
          refine ⟨by simpa using hnd, fun hcon => absurd hcon (by decide),
            by simp [hle]⟩
        · have hdel : eraseKey name
              (accounts ++ [(name,
                { administrator := accounts.isEmpty, password := "",
                  contacts := [], forgiven := 0 })]) = accounts := by
            rw [eraseKey_append_of_not_mem name accounts _ hnone]
            simp [eraseKey]
          have hres : do_register name word accounts =
              (.badPassword, accounts) := by
            simp [do_register, hbn, hk, hw, hdel]
          rw [hres]
          exact ⟨ha, fun hcon => absurd hcon (by decide), by simp [hle]⟩
      · have hres : do_register name word accounts = (.nameTaken, accounts) := by
          simp [do_register, hbn, hk]
        rw [hres]
        exact ⟨ha, fun _ => rfl, by simp [hle]⟩
  have hchan : ((do_channel name argsLen chans next).1.map Prod.fst).Nodup
      ∧ (hasKey name chans = true →
          (do_channel name argsLen chans next).1 = chans)
      ∧ ((do_channel name argsLen chans next).2.2 = true →
          (pySplit name).length ≤ 1 ∧ name ≠ "") := by
    by_cases hbad : argsLen > 1 ∨ (pySplit name).length > 1
    · have hres : do_channel name argsLen chans next = (chans, next, false) := by
        rcases hbad with hb | hb <;> simp [do_channel, hb]
      rw [hres]
      exact ⟨hc, fun _ => rfl, fun hcon => by cases hcon⟩
    · push_neg at hbad
      obtain ⟨harg, hbn2⟩ := hbad
      have hle : (pySplit name).length ≤ 1 := by omega
      by_cases hne : name = ""
      · have hres : do_channel name argsLen chans next =
            (chans, next, false) := by
          simp [do_channel, hne, Nat.not_lt.mpr harg, Nat.not_lt.mpr hbn2]
        rw [hres]
        exact ⟨hc, fun _ => rfl, fun hcon => by cases hcon⟩
      · rcases hk : hasKey name chans with _ | _
        · have hnin : name ∉ chans.map Prod.fst := by
            rw [mem_keys_iff_hasKey, hk]
            simp
          have hres : do_channel name argsLen chans next =
              (chans ++ [(name, next)], next + 1, true) := by
            simp [do_channel, hne, hk, Nat.not_lt.mpr harg,
              Nat.not_lt.mpr hbn2]
          rw [hres]
          have hnd2 : (chans.map Prod.fst ++ [name]).Nodup := by
            rw [← List.concat_eq_append]
            exact List.Nodup.concat hnin hc
          refine ⟨by simpa using hnd2, fun hcon => absurd hcon (by decide),
            fun _ => ⟨hle, hne⟩⟩
        · have hres : do_channel name argsLen chans next =
              (chans, next, true) := by
            simp [do_channel, hne, hk, Nat.not_lt.mpr harg,
              Nat.not_lt.mpr hbn2]
          rw [hres]
          exact ⟨hc, fun _ => rfl, fun _ => ⟨hle, hne⟩⟩
  exact ⟨hreg.1, hreg.2.1, hreg.2.2, hchan.1, hchan.2.1, hchan.2.2⟩

/-- C9 witness: registering bob on an empty registry and opening a fresh
channel `main`. -/
theorem name_validation_and_uniqueness_witness :
    ((do_register "bob" "pw" []).2.map Prod.fst).Nodup
    ∧ (hasKey "bob" ([] : List (String × Account)) = true →
        (do_register "bob" "pw" []).2 = [])
    ∧ ((do_register "bob" "pw" []).1 ≠ .badName ↔
        (pySplit "bob").length ≤ 1)
    ∧ ((do_channel "bob" 0 [] 1).1.map Prod.fst).Nodup
    ∧ (hasKey "bob" ([] : List (String × Nat)) = true →
        (do_channel "bob" 0 [] 1).1 = [])
    ∧ ((do_channel "bob" 0 [] 1).2.2 = true →
        (pySplit "bob").length ≤ 1 ∧ "bob" ≠ "") :=
  name_validation_and_uniqueness "bob" "pw" [] [] 1 0 (by decide) (by decide)

/-- C10 counterexample: the password `" x"` contains whitespace, yet
`len(" x".split()) == 1` so the assertion passes — registration succeeds
and the registry is *not* rolled back. -/
theorem register_keeps_padded_password :
    (do_register "bob" " x" []).1 = .success
    ∧ (do_register "bob" " x" []).2 ≠ []
    ∧ containsSpace " x" = true := by
  decide

/-- C10 (amended): when an accepted, fresh username is supplied with a
password that does not split into exactly one whitespace-delimited token
(it is empty, all whitespace, or has multiple tokens), the provisional
account is removed again and the registry is left exactly as before —
including which future registrant becomes the first administrator, since
the administrator flag is computed from the registry's emptiness. -/
theorem register_bad_password_rollback (name word : String)
    (accounts : List (String × Account))
    (hname : (pySplit name).length ≤ 1)
    (hfresh : hasKey name accounts = false)
    (hword : (pySplit word).length ≠ 1) :
    (do_register name word accounts).1 = .badPassword
    ∧ (do_register name word accounts).2 = accounts := by
  have hb : ¬(pySplit name).length > 1 := by omega
  have hnone : aLookup name accounts = none :=
    (hasKey_false_iff name accounts).mp hfresh
  simp only [do_register, hb, if_false, hfresh, Bool.false_eq_true, hword,
    if_true]
  rw [eraseKey_append_of_not_mem name accounts _ hnone]
  simp [eraseKey]

/-- C10 witness: bob registers with an empty password on an empty
registry; the registry is empty again afterwards. -/
theorem register_bad_password_rollback_witness :
    (do_register "bob" "" []).1 = .badPassword
    ∧ (do_register "bob" "" []).2 = [] :=
  register_bad_password_rollback "bob" "" [] (by decide) (by decide)
    (by decide)

end Multichat
